import Mathlib

/-!
Shallow embedding of the combat core of the Gambition repository
(card/poker classification, status effects, deck and player operations,
boss encounters), together with theorems settling the frozen claims.

Conventions used throughout:
- Python ints are modelled as Lean `Int` (they are unbounded in Python).
- Python floats are modelled as exact rationals `Rat`; the float literals
  appearing in the source (1.3, 1.5, 0.05, ...) are taken at their decimal
  value.  Python `int(x)` on a float is truncation toward zero, modelled
  by `pyInt` below.
- Python `sorted` is modelled by a stable insertion sort.
- `random.shuffle` / `random.choice` are modelled by explicit parameters
  (a shuffle function, an index into the candidate list).
- Mutation is modelled by explicit state passing: every method that
  mutates `self` returns the updated structure.
-/

namespace Gambition

/-- Truncation toward zero of a rational, the semantics of Python `int(x)`
for a float `x` (the denominator of a normalised `Rat` is positive). -/
def pyInt (q : ℚ) : ℤ := Int.tdiv q.num (q.den : ℤ)

/-- Insert into an ascending-sorted list, keeping stability. -/
def insertAsc (x : ℤ) : List ℤ → List ℤ
  | [] => [x]
  | y :: ys => if x ≤ y then x :: y :: ys else y :: insertAsc x ys

/-- Stable ascending sort, the model of Python `sorted(...)` on ints. -/
def sortAsc (l : List ℤ) : List ℤ := l.foldr insertAsc []

/-- Insert into a descending-sorted list. -/
def insertDescN (x : ℕ) : List ℕ → List ℕ
  | [] => [x]
  | y :: ys => if x ≥ y then x :: y :: ys else y :: insertDescN x ys

/-- Descending sort on naturals, the model of Python
`sorted(..., reverse=True)` for rank counts. -/
def sortDescN (l : List ℕ) : List ℕ := l.foldr insertDescN []

/-- Insert into a descending-sorted integer list. -/
def insertDescZ (x : ℤ) : List ℤ → List ℤ
  | [] => [x]
  | y :: ys => if x ≥ y then x :: y :: ys else y :: insertDescZ x ys

/-- Descending sort on integers, the model of Python
`sorted(indices, reverse=True)`. -/
def sortDescZ (l : List ℤ) : List ℤ := l.foldr insertDescZ []

/-- First-occurrence list of the distinct elements of `l`; this is the key
order of a Python dict built by iterating over `l`. -/
def uniqueInts (l : List ℤ) : List ℤ :=
  l.foldl (fun acc v => if v ∈ acc then acc else acc ++ [v]) []

/-- First-occurrence list of distinct strings, modelling `set(...)` size
queries on suit lists. -/
def uniqueStrs (l : List String) : List String :=
  l.foldl (fun acc v => if v ∈ acc then acc else acc ++ [v]) []

/-! ## card.py / constants.py -/

/-- Playing card, from `card.py` (suit and rank strings; validation of the
constructor arguments is not re-modelled, all claims use valid cards). -/
structure Card where
  suit : String
  rank : String
  deriving DecidableEq, Repr

/-- Rank-to-value map `CARD_VALUES` from `constants.py`
(built from the RANKS list, values 2..14). -/
def cardValues (r : String) : ℤ :=
  if r == "2" then 2 else if r == "3" then 3 else if r == "4" then 4
  else if r == "5" then 5 else if r == "6" then 6 else if r == "7" then 7
  else if r == "8" then 8 else if r == "9" then 9 else if r == "10" then 10
  else if r == "J" then 11 else if r == "Q" then 12 else if r == "K" then 13
  else if r == "A" then 14 else 0

/-- Property `Card.value` from `card.py`. -/
def Card.value (c : Card) : ℤ := cardValues c.rank

/-- Table `HAND_MULTIPLIERS` from `constants.py`, as a partial map. -/
def handMultipliers (h : String) : Option ℤ :=
  if h == "High Card" then some 0
  else if h == "Pair" then some 1
  else if h == "Two Pair" then some 2
  else if h == "Three of a Kind" then some 3
  else if h == "Straight" then some 4
  else if h == "Flush" then some 5
  else if h == "Full House" then some 9
  else if h == "Four of a Kind" then some 16
  else if h == "Straight Flush" then some 25
  else if h == "Royal Flush" then some 50
  else if h == "Five of a Kind" then some 40
  else if h == "Flush House" then some 35
  else if h == "Flush Five" then some 100
  else none

/-! ## poker.py -/

/-- Consecutive-values check `all(values[i+1] == values[i] + 1 ...)` from
`poker.py` (on the 5-element sorted value list). -/
def seqAsc : List ℤ → Bool
  | a :: b :: t => (b == a + 1) && seqAsc (b :: t)
  | _ => true

/-- Function `get_poker_hand` from `poker.py`, translated branch by branch
in source order (including the unreachable Flush Five branch). -/
def getPokerHand (cards : List Card) : String × List ℤ :=
  if cards.length ≠ 5 then ("Invalid Hand", []) else
  let values := sortAsc (cards.map Card.value)
  let suits := cards.map Card.suit
  let isFlush := (uniqueStrs suits).length == 1
  let isSequential := seqAsc values
  let isWheelStraight := values == [2, 3, 4, 5, 14]
  let isStraight := isSequential || isWheelStraight
  let counts := sortDescN ((uniqueInts values).map (fun v => values.count v))
  if counts == [5] then ("Five of a Kind", values)
  else if counts == [5] && isFlush then ("Flush Five", values)
  else if isStraight && isFlush && values == [10, 11, 12, 13, 14] then
    ("Royal Flush", values)
  else if isStraight && isFlush then ("Straight Flush", values)
  else if counts == [3, 2] && isFlush then ("Flush House", values)
  else if counts == [4, 1] then ("Four of a Kind", values)
  else if counts == [3, 2] then ("Full House", values)
  else if isFlush then ("Flush", values)
  else if isStraight then ("Straight", values)
  else if counts == [3, 1, 1] then ("Three of a Kind", values)
  else if counts == [2, 2, 1] then ("Two Pair", values)
  else if counts == [2, 1, 1, 1] then ("Pair", values)
  else ("High Card", values)

/-- Function `hand_multiplier` from `poker.py` (`.get(name, 0)`). -/
def handMultiplier (h : String) : ℤ := (handMultipliers h).getD 0

/-! ## status_effects.py -/

/-- Per-class data of a status effect; one constructor per concrete
subclass of `StatusEffect` in `status_effects.py`.  Floats
(`multiplier`, `reduction`) are modelled as exact rationals. -/
inductive EffectKind where
  | stun : EffectKind
  | heal (amount : ℤ) : EffectKind
  | damageBuff (multiplier : ℚ) : EffectKind
  | shield (amount originalAmount : ℤ) : EffectKind
  | damageReduction (reduction : ℚ) : EffectKind
  | poison (damagePerTurn : ℤ) : EffectKind
  deriving DecidableEq, Repr

/-- Status effect state: the subclass data plus the base-class fields
`duration` and `active` from `status_effects.py`. -/
structure StatusEffect where
  kind : EffectKind
  duration : ℤ
  active : Bool
  deriving DecidableEq, Repr

/-- Numeric tag of the Python class of an effect; `type(e) == type(f)` in
the source is `classTag e.kind == classTag f.kind` here. -/
def classTag : EffectKind → ℕ
  | .stun => 0
  | .heal _ => 1
  | .damageBuff _ => 2
  | .shield _ _ => 3
  | .damageReduction _ => 4
  | .poison _ => 5

/-- Constructor `StunEffect()` (name "Stunned", duration 1). -/
def stunEffect : StatusEffect := ⟨.stun, 1, true⟩

/-- Constructor `HealEffect(amount)` (duration 0, instant). -/
def healEffect (amount : ℤ) : StatusEffect := ⟨.heal amount, 0, true⟩

/-- Constructor `DamageBuffEffect(multiplier)` (duration 1). -/
def damageBuffEffect (m : ℚ) : StatusEffect := ⟨.damageBuff m, 1, true⟩

/-- Constructor `ShieldEffect(amount)` (duration 999, lasts until
depleted; `original_amount` records the initial value). -/
def shieldEffect (amount : ℤ) : StatusEffect := ⟨.shield amount amount, 999, true⟩

/-- Constructor `DamageReductionEffect(reduction, duration=999)`. -/
def damageReductionEffect (r : ℚ) (duration : ℤ := 999) : StatusEffect :=
  ⟨.damageReduction r, duration, true⟩

/-- Constructor `PoisonEffect(damage_per_turn, duration=3)`. -/
def poisonEffect (dpt : ℤ) (duration : ℤ := 3) : StatusEffect :=
  ⟨.poison dpt, duration, true⟩

/-- Body of `HealEffect.apply`: `target.hp = min(target.max_hp, target.hp
+ self.amount)`; returns the new hp. -/
def healApply (hp maxHp amount : ℤ) : ℤ := min maxHp (hp + amount)

/-- Body of `PoisonEffect.tick`: `target.hp = max(0, target.hp -
self.damage_per_turn)`; returns the new hp. -/
def poisonTickHp (hp damagePerTurn : ℤ) : ℤ := max 0 (hp - damagePerTurn)

/-- Method `ShieldEffect.absorb_damage`: absorbs up to the remaining
amount, deactivates the shield when it reaches zero, and returns the
remaining damage together with the updated effect. -/
def absorbDamage (amount originalAmount duration : ℤ) (active : Bool)
    (damage : ℤ) : ℤ × StatusEffect :=
  let absorbed := min amount damage
  let amount1 := amount - absorbed
  let remaining := damage - absorbed
  let active1 := if amount1 ≤ 0 then false else active
  (remaining, ⟨.shield amount1 originalAmount, duration, active1⟩)

/-- Method `StatusEffectManager.add_effect`: an effect of the same class
replaces existing ones (Poison stacks), the new effect is appended, and
its `apply` hook runs immediately (only `HealEffect.apply` touches state,
changing the target hp).  Returns the updated effect list and hp. -/
def addEffect (effects : List StatusEffect) (e : StatusEffect)
    (hp maxHp : ℤ) : List StatusEffect × ℤ :=
  let kept :=
    if classTag e.kind == classTag (EffectKind.poison 0) then effects
    else effects.filter (fun f => classTag f.kind ≠ classTag e.kind)
  let hp1 :=
    match e.kind with
    | .heal amount => healApply hp maxHp amount
    | _ => hp
  (kept ++ [e], hp1)

/-- Method `StatusEffectManager.modify_outgoing_damage`: every active
DamageBuffEffect multiplies the damage (with `int(...)` truncation) and
is deactivated in place; the list keeps its elements. -/
def modifyOutgoingDamage : List StatusEffect → ℤ → ℤ × List StatusEffect
  | [], d => (d, [])
  | e :: rest, d =>
    match e.kind, e.active with
    | .damageBuff m, true =>
      let d1 := pyInt ((d : ℚ) * m)
      let (d2, rest1) := modifyOutgoingDamage rest d1
      (d2, ⟨e.kind, e.duration, false⟩ :: rest1)
    | _, _ =>
      let (d2, rest1) := modifyOutgoingDamage rest d
      (d2, e :: rest1)

/-- Shield pass of `modify_incoming_damage`: a Python `for` loop over
`self.effects` that removes a depleted shield from the list it is
iterating over.  CPython list iteration keeps a position counter, so
removing the current element makes the loop skip the element right after
it (that element stays in the list unprocessed); the translation mirrors
this by dropping the next element from the recursion while keeping it in
the result. -/
def shieldPass : List StatusEffect → ℤ → ℤ × List StatusEffect
  | [], d => (d, [])
  | e :: rest, d =>
    match e.kind, e.active with
    | .shield amount original, true =>
      let (remaining, e1) := absorbDamage amount original e.duration true d
      if e1.active then
        let (d2, rest1) := shieldPass rest remaining
        (d2, e1 :: rest1)
      else
        match rest with
        | [] => (remaining, [])
        | skipped :: rest2 =>
          let (d2, rest3) := shieldPass rest2 remaining
          (d2, skipped :: rest3)
    | _, _ =>
      let (d2, rest1) := shieldPass rest d
      (d2, e :: rest1)

/-- Method `StatusEffectManager.modify_incoming_damage`: first every
active DamageReductionEffect multiplies the damage by `1 - reduction`
(with `int(...)` truncation), then shields absorb it in order. -/
def modifyIncomingDamage (effects : List StatusEffect) (damage : ℤ) :
    ℤ × List StatusEffect :=
  let reduced := effects.foldl
    (fun d e =>
      match e.kind, e.active with
      | .damageReduction r, true => pyInt ((d : ℚ) * (1 - r))
      | _, _ => d)
    damage
  shieldPass effects reduced

/-! ## deck.py -/

/-- Method `Deck.draw`: draws up to `count` cards from the end of the
list (`cards[-actual:]`), keeping the front (`cards[:-actual]`); a
non-positive count or an empty deck returns no cards.  Returns the drawn
cards and the remaining deck. -/
def deckDraw (cards : List Card) (count : ℤ) : List Card × List Card :=
  if count ≤ 0 then ([], cards)
  else
    let actual := min count (cards.length : ℤ)
    if actual = 0 then ([], cards)
    else
      let keep := cards.length - actual.toNat
      (cards.drop keep, cards.take keep)

/-! ## jokers.py -/

/-- Membership in the `JOKER_DEFINITIONS` catalogue. -/
def jokerKnown (j : String) : Bool :=
  j == "blank" || j == "joker" || j == "archon" || j == "ruse" ||
  j == "emperor" || j == "hierophant" || j == "fool" || j == "magician" ||
  j == "business_card" || j == "gemini" || j == "necromancer"

/-- The `single_use` flag of a catalogue entry. -/
def jokerSingleUse (j : String) : Bool := j == "business_card"

/-- The `effect` function of a catalogue entry (damage as exact
rational; the 1.5 factors are exact in binary floats as well).  Entries
whose effect is handled elsewhere (fool, magician, gemini, necromancer,
blank) are the identity, as in the source. -/
def jokerEffect (j : String) (hand : List Card) (dmg : ℚ) (ht : String) : ℚ :=
  if j == "joker" then dmg + 1 * (hand.length : ℚ)
  else if j == "archon" then dmg * (hand.length : ℚ)
  else if j == "ruse" then
    (if ht == "Pair" || ht == "Three of a Kind" then dmg * (3/2) else dmg)
  else if j == "emperor" then
    (if ht == "Straight" || ht == "Flush" then dmg * (3/2) else dmg)
  else if j == "hierophant" then
    (if ht == "Four of a Kind" || ht == "Straight Flush" then dmg * (3/2) else dmg)
  else if j == "business_card" then dmg * 3
  else dmg

/-- The `for _ in range(jokers.count(gemini))` loop of `apply_jokers`:
each round folds the (at most two) duplicate targets over the damage. -/
def geminiRounds (hand : List Card) (ht : String) (targets : List String) :
    ℕ → ℚ → ℚ
  | 0, d => d
  | n + 1, d =>
    geminiRounds hand ht targets n
      (targets.foldl (fun d t => jokerEffect t hand d ht) d)

/-- Function `apply_jokers` from `jokers.py`: folds the joker effects in
acquisition order, collects fired single-use jokers, applies the gemini
duplication pass (the source indexes `JOKER_DEFINITIONS[target]` directly
there and would raise KeyError on a name outside the catalogue; the model
applies the identity in that unreachable-for-valid-data case), and
removes consumed jokers.  Returns the damage and the updated joker
list. -/
def applyJokers (hand : List Card) (baseDamage : ℚ) (ht : String)
    (jokers : List String) : ℚ × List String :=
  let step := jokers.foldl
    (fun (acc : ℚ × List String) j =>
      if jokerKnown j then
        (jokerEffect j hand acc.1 ht,
         if jokerSingleUse j then acc.2 ++ [j] else acc.2)
      else acc)
    (baseDamage, [])
  let dmg1 :=
    if "gemini" ∈ jokers then
      let others := jokers.filter (fun j => j ≠ "gemini")
      let targets := others.take 2
      geminiRounds hand ht targets (jokers.count "gemini") step.1
    else step.1
  (dmg1, step.2.foldl (fun l j => l.erase j) jokers)

/-! ## entities/player.py -/

/-- Combat-relevant state of `Player` from `entities/player.py`
(presentation and progression fields not touched by the embedded
operations are omitted; consumable items are kept as name strings since
only their count feeds the embedded damage pipeline). -/
structure Player where
  maxHp : ℤ
  hp : ℤ
  deck : List Card
  discardPile : List Card
  hand : List Card
  handSize : ℕ
  maxDiscards : ℤ
  discardsLeft : ℤ
  jokers : List String
  items : List String
  statusEffects : List StatusEffect
  combatTurn : ℤ
  permanentDamageMultiplier : ℚ
  deriving Repr

/-- Method `Player.draw_cards`: with no count, tops the hand up to
`hand_size` plus one per held fool joker; shuffles the deck (the
injected `shuffle` parameter models `random.shuffle`) only when cards
are actually drawn. -/
def drawCards (shuffle : List Card → List Card) (p : Player)
    (countArg : Option ℤ) : Player :=
  let count :=
    match countArg with
    | some c => c
    | none =>
      let extra := (p.jokers.count "fool" : ℤ) * 1
      let desired := (p.handSize : ℤ) + extra
      max 0 (desired - (p.hand.length : ℤ))
  let deck1 := if count > 0 then shuffle p.deck else p.deck
  let drawn := deckDraw deck1 count
  { p with deck := drawn.2, hand := p.hand ++ drawn.1 }

/-- Method `Player.discard_cards`: rejects a zero budget or an empty
selection, otherwise decrements the budget, pops the selected indices in
descending order (silently skipping indices outside the current hand, as
the `0 <= idx < len` guard does), applies the echo-mage clone rule, and
refills the hand. -/
def discardCards (shuffle : List Card → List Card) (p : Player)
    (indices : List ℤ) : List Card × Player :=
  if p.discardsLeft ≤ 0 then ([], p)
  else if indices.length == 0 then ([], p)
  else
    let p1 := { p with discardsLeft := p.discardsLeft - 1 }
    let st := (sortDescZ indices).foldl
      (fun (st : List Card × List Card × List Card) idx =>
        if 0 ≤ idx ∧ idx < (st.1.length : ℤ) then
          let card := st.1.getD idx.toNat (Card.mk "" "")
          (st.1.eraseIdx idx.toNat, st.2.1 ++ [card], st.2.2 ++ [card])
        else st)
      (p1.hand, p1.discardPile, ([] : List Card))
    let discarded := st.2.2
    let p2 := { p1 with hand := st.1, discardPile := st.2.1 }
    if discarded.length == 1 && "echo_mage" ∈ p2.jokers then
      let cloned := discarded.getD 0 (Card.mk "" "")
      let p3 := { p2 with hand := p2.hand ++ [cloned] }
      (discarded, drawCards shuffle p3 (some ((discarded.length : ℤ) - 1)))
    else
      (discarded, drawCards shuffle p2 (some (discarded.length : ℤ)))

/-- Removal loop at the end of `form_hand_and_attack`
(`self.hand.pop(idx)` over the indices in descending order): Python
raises IndexError when a popped index is out of range of the shrunken
hand, which can happen with duplicate indices; negative indices cannot
reach this loop because of the earlier validation. -/
def popPlayed : List ℤ → List Card → List Card →
    Except String (List Card × List Card)
  | [], hand, pile => .ok (hand, pile)
  | idx :: rest, hand, pile =>
    if 0 ≤ idx ∧ idx < (hand.length : ℤ) then
      popPlayed rest (hand.eraseIdx idx.toNat)
        (pile ++ [hand.getD idx.toNat (Card.mk "" "")])
    else .error "IndexError"

/-- Method `Player.form_hand_and_attack` for the `enemy=None` call path
(the default argument): the source guards the card-combination abilities
and the executioner bonus behind `if enemy ...`, so both are skipped
here and the abilities result is the empty effect list with multiplier
1.0.  Validation, classification, the joker/berserker/shaman/status
stages, the truncating multiplications, and the discard-and-refill of
the played cards follow the source line by line.  The result pairs the
return value `(total_damage, hand_type, effects)` with the updated
player; the final `float(total_damage)` cast is exact and kept as the
integer. -/
def formHandAndAttack (shuffle : List Card → List Card) (p : Player)
    (indices : List ℤ) :
    Except String ((ℤ × Option String × List String) × Player) :=
  if indices.length == 0 then .ok ((0, none, []), p)
  else if indices.any
      (fun i => decide ((p.hand.length : ℤ) ≤ i) || decide (i < 0)) then
    .ok ((0, none, []), p)
  else
    let selected := indices.map (fun i => p.hand.getD i.toNat (Card.mk "" ""))
    let classified :=
      if indices.length == 5 then
        let ht := (getPokerHand selected).1
        if ht == "Invalid Hand" then ("Strike", (1 : ℤ))
        else (ht, handMultiplier ht)
      else
        let values := selected.map Card.value
        let counts := sortDescN ((uniqueInts values).map (fun v => values.count v))
        let ht :=
          if counts == [4] then "Four of a Kind"
          else if counts == [3, 1] then "Three of a Kind"
          else if counts == [2, 2] then "Two Pair"
          else if counts == [2, 1] || counts == [2] then "Pair"
          else if selected.length == 1 || counts == [1] then "High Card"
          else "Strike"
        (ht, (handMultipliers ht).getD 1)
    let handType := classified.1
    let baseDamage : ℤ := (selected.map Card.value).sum * classified.2
    let jk := applyJokers selected (baseDamage : ℚ) handType p.jokers
    let total1 :=
      if "berserker" ∈ jk.2 then jk.1 + ((p.combatTurn * 2 : ℤ) : ℚ) else jk.1
    let total2 :=
      if "shaman" ∈ jk.2 then
        ((pyInt (total1 * (1 + (1/20) * (p.items.length : ℚ)))) : ℚ)
      else total1
    let og := modifyOutgoingDamage p.statusEffects (pyInt total2)
    let abilitiesMultiplier : ℚ := 1
    let total4 := pyInt ((og.1 : ℚ) * abilitiesMultiplier)
    let total5 := pyInt ((total4 : ℚ) * p.permanentDamageMultiplier)
    match popPlayed (sortDescZ indices) p.hand p.discardPile with
    | .error e => .error e
    | .ok popped =>
      let p1 := { p with hand := popped.1, discardPile := popped.2,
                         jokers := jk.2, statusEffects := og.2 }
      let p2 := drawCards shuffle p1 (some (indices.length : ℤ))
      .ok ((total5, some handType, []), p2)

/-- Method `Player.take_damage`: incoming damage is filtered through the
status registry and hp is clamped at zero. -/
def playerTakeDamage (p : Player) (dmg : ℚ) : Player :=
  let r := modifyIncomingDamage p.statusEffects (pyInt dmg)
  { p with statusEffects := r.2, hp := max 0 (p.hp - r.1) }

/-! ## entities/enemy.py -/

/-- State of `Enemy` from `entities/enemy.py`. -/
structure Enemy where
  name : String
  hp : ℤ
  maxHp : ℤ
  attackValue : ℤ
  defense : ℤ
  statusEffects : List StatusEffect
  deriving Repr

/-- Method `Enemy.take_damage`: status registry first, then defense
(clamped at zero), then hp clamped at zero. -/
def enemyTakeDamage (e : Enemy) (dmg : ℚ) : Enemy :=
  let r := modifyIncomingDamage e.statusEffects (pyInt dmg)
  let actual := max 0 (r.1 - e.defense)
  { e with statusEffects := r.2, hp := max 0 (e.hp - actual) }

/-! ## boss_encounters.py -/

/-- Enumeration `BossType`. -/
inductive BossType where
  | twistedBoss : BossType
  | storyBoss : BossType
  | finalBoss : BossType
  deriving DecidableEq, Repr

/-- Enumeration `BossPhase`. -/
inductive BossPhase where
  | intro : BossPhase
  | phase1 : BossPhase
  | phase2 : BossPhase
  | phase3 : BossPhase
  | defeated : BossPhase
  deriving DecidableEq, Repr

/-- Position of a phase in the ordering Intro < Phase1 < Phase2 < Phase3
(< Defeated), used to state monotonicity. -/
def phaseIdx : BossPhase → ℕ
  | .intro => 0
  | .phase1 => 1
  | .phase2 => 2
  | .phase3 => 3
  | .defeated => 4

/-- Dataclass `BossAbility`. -/
structure BossAbility where
  name : String
  description : String
  damage : ℤ
  effects : List String
  cooldown : ℤ
  currentCooldown : ℤ
  deriving DecidableEq, Repr

/-- Method `BossAbility.can_use`. -/
def BossAbility.canUse (a : BossAbility) : Bool := a.currentCooldown ≤ 0

/-- Method `BossAbility.update_cooldown`. -/
def BossAbility.updateCooldown (a : BossAbility) : BossAbility :=
  if a.currentCooldown > 0 then { a with currentCooldown := a.currentCooldown - 1 }
  else a

/-- Method `BossAbility.use`: when the cooldown gate passes, resets the
cooldown and returns the damage and effect tags; otherwise the source
returns an empty dict, modelled as `none`. -/
def BossAbility.use (a : BossAbility) : Option (ℤ × List String) × BossAbility :=
  if a.canUse then (some (a.damage, a.effects), { a with currentCooldown := a.cooldown })
  else (none, a)

/-- Combat-relevant state of `Boss` (district, position, cutscene texts
and the defeat callback are presentation data and omitted; the
`phase_health_thresholds` dict is never read by `update_phase`, which
hardcodes the same thresholds). -/
structure Boss where
  bossId : String
  name : String
  bossType : BossType
  abilities : List BossAbility
  phases : List BossPhase
  currentPhase : BossPhase
  enemy : Enemy
  bossEffects : List StatusEffect
  turnCount : ℤ
  specialAbilitiesUsed : List String
  deriving Repr

/-- Method `Boss.get_health_percentage` (`hp / max_hp`; Python float
division is modelled as exact rational division, written with
`Rat.divInt`, which equals `(hp : ℚ) / (max_hp : ℚ)` — a zero `max_hp`
would raise in Python, the theorems assume it positive). -/
def getHealthPercentage (b : Boss) : ℚ :=
  Rat.divInt b.enemy.hp b.enemy.maxHp

/-- Method `Boss.update_phase`: thresholds evaluated high to low, each
gated on membership of the phase in the declared phase list; the float
literals 0.2, 0.5, 0.8 are the rationals 1/5, 1/2, 4/5 (written with
`Rat.divInt`). -/
def updatePhase (b : Boss) : Boss :=
  let healthPct := getHealthPercentage b
  if healthPct ≤ Rat.divInt 1 5 ∧ BossPhase.phase3 ∈ b.phases then
    { b with currentPhase := .phase3 }
  else if healthPct ≤ Rat.divInt 1 2 ∧ BossPhase.phase2 ∈ b.phases then
    { b with currentPhase := .phase2 }
  else if healthPct ≤ Rat.divInt 4 5 ∧ BossPhase.phase1 ∈ b.phases then
    { b with currentPhase := .phase1 }
  else b

/-- Default ability used for in-range list indexing. -/
def defaultAbility : BossAbility := ⟨"", "", 0, [], 0, 0⟩

/-- Method `Boss.choose_ability`, returning the index of the chosen
ability in `b.abilities` (`random.choice` is modelled by the index
parameter `r` reduced modulo the candidate count): off-cooldown
abilities not yet used this combat are preferred, then any off-cooldown
ability, else `none` (basic attack). -/
def chooseAbility (b : Boss) (r : ℕ) : Option ℕ :=
  let avail := (List.range b.abilities.length).filter
    (fun i => (b.abilities.getD i defaultAbility).canUse)
  if avail.isEmpty then none
  else
    let unused := avail.filter
      (fun i => decide ((b.abilities.getD i defaultAbility).name ∉ b.specialAbilitiesUsed))
    if !unused.isEmpty then some (unused.getD (r % unused.length) 0)
    else some (avail.getD (r % avail.length) 0)

/-- The action dict returned by `Boss.take_turn`. -/
structure BossTurnResult where
  ability : String
  damage : ℤ
  effects : List String
  phase : BossPhase
  deriving DecidableEq, Repr

/-- Method `Boss.take_turn`: increments the turn counter, updates every
cooldown, chooses an ability; a chosen ability is consumed via `use`,
its damage is scaled by the ability phase table (1.5 for Phase2, 2.0 for
Phase3, with `int(...)` truncation) and its effect tags are applied
(stun and poison onto the player registry, shield onto the boss
registry); otherwise the basic attack uses the second table (1.3 / 1.6).
Returns the action, the updated boss and the updated player. -/
def bossAfterCooldowns (b : Boss) : Boss :=
  { b with turnCount := b.turnCount + 1,
           abilities := b.abilities.map BossAbility.updateCooldown }

def takeTurn (b : Boss) (player : Player) (r : ℕ) :
    BossTurnResult × Boss × Player :=
  let b1 := bossAfterCooldowns b
  match chooseAbility b1 r with
  | some i =>
    let chosen := b1.abilities.getD i defaultAbility
    let used := chosen.use
    let b2 := { b1 with abilities := b1.abilities.set i used.2,
                        specialAbilitiesUsed := b1.specialAbilitiesUsed ++ [chosen.name] }
    -- the chosen index passed the can_use filter, so `use` fired and the
    -- dict lookups below are the source's `action[...]` accesses
    let action := used.1.getD (0, [])
    let damage :=
      if b2.currentPhase = .phase2 then pyInt ((action.1 : ℚ) * (3/2))
      else if b2.currentPhase = .phase3 then pyInt ((action.1 : ℚ) * 2)
      else action.1
    let st := action.2.foldl
      (fun (st : List StatusEffect × ℤ × List StatusEffect) eff =>
        if eff == "stun" then
          let r1 := addEffect st.1 stunEffect st.2.1 player.maxHp
          (r1.1, r1.2, st.2.2)
        else if eff == "poison" then
          let r1 := addEffect st.1 (poisonEffect 5 3) st.2.1 player.maxHp
          (r1.1, r1.2, st.2.2)
        else if eff == "shield" then
          -- the shield apply hook only prints; the hp returned by
          -- addEffect is unchanged and dropped
          let r1 := addEffect st.2.2 (shieldEffect 20) b2.enemy.hp b2.enemy.maxHp
          (st.1, st.2.1, r1.1)
        else st)
      (player.statusEffects, player.hp, b2.bossEffects)
    let player1 := { player with statusEffects := st.1, hp := st.2.1 }
    let b3 := { b2 with bossEffects := st.2.2 }
    (⟨chosen.name, damage, action.2, b3.currentPhase⟩, b3, player1)
  | none =>
    let damage :=
      if b1.currentPhase = .phase2 then pyInt ((b1.enemy.attackValue : ℚ) * (13/10))
      else if b1.currentPhase = .phase3 then pyInt ((b1.enemy.attackValue : ℚ) * (8/5))
      else b1.enemy.attackValue
    (⟨"basic_attack", damage, [], b1.currentPhase⟩, b1, player)

/-- Loot dict of `BossEncounter._generate_loot`; the two
`random.randint` rolls are modelled by the parameters of
`generateLoot`. -/
structure Loot where
  gold : ℤ
  fortunas : ℤ
  items : List String
  companions : List String
  deriving DecidableEq, Repr

/-- Method `BossEncounter._generate_loot` (`randint(50, 200)` and
`randint(10, 50)` are inclusive, hence the moduli 151 and 41). -/
def generateLoot (bt : BossType) (g f : ℕ) : Loot :=
  { gold := 50 + (g % 151 : ℕ)
    fortunas := 10 + (f % 41 : ℕ)
    items :=
      match bt with
      | .twistedBoss => ["twisted_essence"]
      | .storyBoss => ["memory_fragment"]
      | .finalBoss => ["ascendancy_core", "valerius_memory"]
    companions := [] }

/-- Combat-relevant state of `BossEncounter` (the world map reference is
presentation data and omitted). -/
structure BossEncounter where
  boss : Boss
  player : Player
  encounterStarted : Bool
  encounterCompleted : Bool
  cutsceneActive : Bool
  specialRules : List String
  turnNumber : ℤ
  bossActions : List BossTurnResult
  playerActions : List ℤ
  deriving Repr

/-- Return value of `BossEncounter.take_player_turn`: either the defeat
dict of `_handle_boss_defeat` or the ongoing-turn dict. -/
inductive TurnOutcome where
  | victory (bossDefeated : Bool) (loot : Loot) : TurnOutcome
  | ongoing (bossAction : BossTurnResult) (bossHealth : ℤ)
      (bossHealthPercentage : ℚ) (phase : BossPhase) (turnNumber : ℤ) :
      TurnOutcome
  deriving DecidableEq, Repr

/-- Method `BossEncounter.take_player_turn`, translated in source order:
apply the player damage to the boss, update the phase, let the boss take
its turn, apply the boss damage to the player, then check for defeat
(the per-turn special rules only print and the `on_defeat` callback
mutates the external manager, both outside this state).  `r` selects the
boss ability, `g` and `f` are the loot rolls. -/
def takePlayerTurn (enc : BossEncounter) (playerActionDamage : ℤ)
    (r g f : ℕ) : TurnOutcome × BossEncounter :=
  let enc1 := { enc with turnNumber := enc.turnNumber + 1,
                         playerActions := enc.playerActions ++ [playerActionDamage] }
  let boss1 := { enc1.boss with
    enemy := enemyTakeDamage enc1.boss.enemy (playerActionDamage : ℚ) }
  let boss2 := updatePhase boss1
  let tt := takeTurn boss2 enc1.player r
  let player2 := playerTakeDamage tt.2.2 ((tt.1.damage : ℤ) : ℚ)
  let enc2 := { enc1 with boss := tt.2.1, player := player2,
                          bossActions := enc1.bossActions ++ [tt.1] }
  if tt.2.1.enemy.hp ≤ 0 then
    let enc3 := { enc2 with encounterCompleted := true, cutsceneActive := false }
    (.victory true (generateLoot tt.2.1.bossType g f), enc3)
  else
    (.ongoing tt.1 tt.2.1.enemy.hp (getHealthPercentage tt.2.1)
      tt.2.1.currentPhase enc2.turnNumber, enc2)

/-- Lookup table the spec gives for boss ability damage per phase
(1.0 for Intro and Phase1, 1.5 for Phase2, 2.0 for Phase3); this
definition follows the words of the spec, to be compared with
`takeTurn`. -/
def specAbilityScale : BossPhase → ℚ
  | .phase2 => 3/2
  | .phase3 => 2
  | _ => 1

/-- Lookup table the spec gives for boss basic-attack damage per phase
(1.0 for Intro and Phase1, 1.3 for Phase2, 1.6 for Phase3); this
definition follows the words of the spec, to be compared with
`takeTurn`. -/
def specBasicScale : BossPhase → ℚ
  | .phase2 => 13/10
  | .phase3 => 8/5
  | _ => 1

/-- The hp change a boss suffers from a player attack, used to state
phase monotonicity over a sequence of hp values. -/
def setEnemyHp (b : Boss) (hp : ℤ) : Boss :=
  { b with enemy := { b.enemy with hp := hp } }

/-- Successive phases along a sequence of hp values, each step setting
the hp and running `update_phase` (the order used by
`take_player_turn`). -/
def phaseSeq (b : Boss) : List ℤ → List BossPhase
  | [] => []
  | h :: t =>
    let b1 := updatePhase (setEnemyHp b h)
    b1.currentPhase :: phaseSeq b1 t

/-- The health-threshold condition of the current phase (the condition
under which `update_phase` would have assigned it). -/
def phaseThresholdOk (b : Boss) : Prop :=
  match b.currentPhase with
  | .phase1 => getHealthPercentage b ≤ Rat.divInt 4 5
  | .phase2 => getHealthPercentage b ≤ Rat.divInt 1 2
  | .phase3 => getHealthPercentage b ≤ Rat.divInt 1 5
  | _ => False

/-- Invariant carried along a combat: the phase is still Intro, or it is
a declared threshold phase whose threshold currently holds. -/
def PhaseInv (b : Boss) : Prop :=
  b.currentPhase = .intro ∨
    (b.currentPhase ∈ b.phases ∧ phaseThresholdOk b)

/-- Predicate used by the buff lemmas: the effect is a DamageBuffEffect
that is still active. -/
def isActiveBuff (e : StatusEffect) : Bool :=
  match e.kind, e.active with
  | .damageBuff _, true => true
  | _, _ => false

/-- Concrete player state used by the C3 theorems: one card in hand,
full discard budget, empty registries. -/
def pC : Player :=
  ⟨100, 100, [], [], [Card.mk "Hearts" "A"], 8, 3, 3, [], [], [], 0, 1⟩

/-- Boss used by the C6 witness: full phase list, 100 hp. -/
def bW : Boss := ⟨"w", "W", .storyBoss, [],
  [.intro, .phase1, .phase2, .phase3], .intro,
  ⟨"W", 100, 100, 10, 0, []⟩, [], 0, []⟩

/-- Boss used by the C7 witness ability case: one off-cooldown ability,
currently in Phase2. -/
def bA : Boss := ⟨"a", "A", .twistedBoss, [⟨"zap", "", 10, [], 3, 0⟩],
  [.intro, .phase1, .phase2], .phase2, ⟨"A", 60, 120, 7, 0, []⟩, [], 0, []⟩

/-- Boss used by the C7 witness basic-attack case: its only ability is
on cooldown, currently in Phase3. -/
def bB : Boss := ⟨"c", "C", .twistedBoss, [⟨"zap", "", 10, [], 3, 5⟩],
  [.intro], .phase3, ⟨"C", 10, 120, 7, 0, []⟩, [], 0, []⟩

/-- Boss used by the C2 theorem: 10 hp, 15 attack, no abilities. -/
def bossC2 : Boss := ⟨"b", "B", .twistedBoss, [], [.intro], .intro,
  ⟨"B", 10, 100, 15, 0, []⟩, [], 0, []⟩

/-- Encounter used by the C2 theorem: the boss above against a
full-health player. -/
def encC2 : BossEncounter :=
  ⟨bossC2, pC, true, false, false, ["twisted_aura"], 0, [], []⟩

end Gambition

/-!  Theorems for the claims start here; helper lemmas are shared, the
claim theorems themselves are used only by their own witnesses. -/

namespace Gambition

/-- Closed form of `Deck.draw`: the drawn cards are the final
`min count.toNat cards.length` cards, the rest is kept (note
`count.toNat = max count 0`). -/
theorem deckDraw_eq (cards : List Card) (c : ℤ) :
    deckDraw cards c =
      (cards.drop (cards.length - min c.toNat cards.length),
       cards.take (cards.length - min c.toNat cards.length)) := by
  simp only [deckDraw]
  split_ifs with h1 h2
  · have hz : c.toNat = 0 := by omega
    simp [hz]
  · have hlen : cards.length = 0 := by omega
    rw [List.length_eq_zero.mp hlen]
    simp
  · have h3 : (min c (cards.length : ℤ)).toNat = min c.toNat cards.length := by
      omega
    rw [h3]

/-- Sizes of the two halves produced by `Deck.draw`. -/
theorem deckDraw_lengths (cards : List Card) (c : ℤ) :
    (deckDraw cards c).1.length = min c.toNat cards.length ∧
    (deckDraw cards c).2.length = cards.length - min c.toNat cards.length := by
  rw [deckDraw_eq]
  constructor
  · simp only [List.length_drop]
    omega
  · simp only [List.length_take]
    omega



/-- A list without active damage buffs passes through
`modify_outgoing_damage` unchanged. -/
theorem modifyOutgoing_no_active_buff (l : List StatusEffect) (d : ℤ)
    (h : ∀ e ∈ l, isActiveBuff e = false) :
    modifyOutgoingDamage l d = (d, l) := by
  induction l with
  | nil => rfl
  | cons e rest ih =>
    have he := h e (List.mem_cons_self _ _)
    have hrest : ∀ f ∈ rest, isActiveBuff f = false :=
      fun f hf => h f (List.mem_cons_of_mem _ hf)
    obtain ⟨k, dur, act⟩ := e
    cases k <;> cases act <;>
      simp_all [modifyOutgoingDamage, isActiveBuff, ih hrest]

/-- A prefix without active damage buffs is skipped by
`modify_outgoing_damage`. -/
theorem modifyOutgoing_append_no_buff (l₁ l₂ : List StatusEffect) (d : ℤ)
    (h : ∀ e ∈ l₁, isActiveBuff e = false) :
    modifyOutgoingDamage (l₁ ++ l₂) d =
      ((modifyOutgoingDamage l₂ d).1, l₁ ++ (modifyOutgoingDamage l₂ d).2) := by
  induction l₁ with
  | nil => simp
  | cons e rest ih =>
    have he := h e (List.mem_cons_self _ _)
    have hrest : ∀ f ∈ rest, isActiveBuff f = false :=
      fun f hf => h f (List.mem_cons_of_mem _ hf)
    obtain ⟨k, dur, act⟩ := e
    cases k <;> cases act <;>
      simp_all [modifyOutgoingDamage, isActiveBuff, ih hrest]

/-- An effect whose class tag differs from the DamageBuffEffect tag is
not an active buff. -/
theorem isActiveBuff_false_of_tag (f : StatusEffect)
    (h : classTag f.kind ≠ classTag (EffectKind.damageBuff 1)) :
    isActiveBuff f = false := by
  obtain ⟨k, dur, act⟩ := f
  cases k <;> cases act <;> simp_all [isActiveBuff, classTag]

/-- C1: the claim says a hand of five identical ranks all in one suit is
classified "Flush Five" and never "Five of a Kind".  The code checks
`counts == [5]` first and returns "Five of a Kind" there, so the
Flush Five branch (which repeats `counts == [5]` plus the flush test) is
unreachable: on five copies of the Ace of Hearts the classifier returns
"Five of a Kind".  This theorem evaluates the code at that failing
input. -/
theorem C1_flush_five_shadowed :
    getPokerHand (List.replicate 5 (Card.mk "Hearts" "A")) =
      ("Five of a Kind", [14, 14, 14, 14, 14]) := by
  decide

/-- C4: a combatant holding a single Shield(20) and nothing else takes 5
damage through from a 25-damage hit and the shield is removed from the
registry; a 15-damage hit passes 0 damage through and leaves the shield
with amount 5. -/
theorem C4_shield_absorption :
    modifyIncomingDamage [shieldEffect 20] 25 = (5, []) ∧
    modifyIncomingDamage [shieldEffect 20] 15 =
      (0, [⟨EffectKind.shield 5 20, 999, true⟩]) := by
  constructor <;> rfl

/-- C5: after a DamageBuff(1.3) is added once, the next
`modify_outgoing_damage` call returns `int(raw * 1.3)` (the float 1.3 is
modelled as the exact rational 13/10) and consumes the buff, and a later
call on the resulting registry returns its input unchanged with the
registry unchanged, so the multiplier fires exactly once. -/
theorem C5_damage_buff_consumed_once (effects : List StatusEffect)
    (hp maxHp raw raw2 : ℤ) :
    (modifyOutgoingDamage
        (addEffect effects (damageBuffEffect (13/10)) hp maxHp).1 raw).1 =
      pyInt ((raw : ℚ) * (13/10)) ∧
    modifyOutgoingDamage
        (modifyOutgoingDamage
          (addEffect effects (damageBuffEffect (13/10)) hp maxHp).1 raw).2 raw2 =
      (raw2,
        (modifyOutgoingDamage
          (addEffect effects (damageBuffEffect (13/10)) hp maxHp).1 raw).2) := by
  have hfilter : ∀ f ∈ effects.filter
      (fun f => classTag f.kind ≠ classTag (EffectKind.damageBuff (13/10))),
      isActiveBuff f = false := by
    intro f hf
    have := (List.mem_filter.mp hf).2
    exact isActiveBuff_false_of_tag f (by simpa [classTag] using of_decide_eq_true this)
  have hadd : (addEffect effects (damageBuffEffect (13/10)) hp maxHp).1 =
      effects.filter
        (fun f => classTag f.kind ≠ classTag (EffectKind.damageBuff (13/10)))
        ++ [damageBuffEffect (13/10)] := by
    simp [addEffect, damageBuffEffect, classTag]
  have hsingle : modifyOutgoingDamage [damageBuffEffect (13/10)] raw =
      (pyInt ((raw : ℚ) * (13/10)), [⟨EffectKind.damageBuff (13/10), 1, false⟩]) := rfl
  have hfirst := modifyOutgoing_append_no_buff
    (effects.filter
      (fun f => classTag f.kind ≠ classTag (EffectKind.damageBuff (13/10))))
    [damageBuffEffect (13/10)] raw hfilter
  rw [hadd, hfirst, hsingle]
  refine ⟨rfl, ?_⟩
  apply modifyOutgoing_no_active_buff
  intro f hf
  rcases List.mem_append.mp hf with hmem | hmem
  · exact hfilter f hmem
  · simp only [List.mem_singleton] at hmem
    subst hmem
    rfl

/-- C10: `Deck.draw` is total and never over-draws: it returns exactly
`min (max count 0) (len deck)` cards (here `count.toNat`), taken from the
end of the deck (the remaining deck is the prefix and re-appending the
drawn suffix restores the deck), and a non-positive count or an empty
deck yields no cards and an unchanged deck. -/
theorem C10_deck_draw_never_overdraws (cards : List Card) (count : ℤ) :
    (deckDraw cards count).1.length = min count.toNat cards.length ∧
    (deckDraw cards count).2.length =
      cards.length - min count.toNat cards.length ∧
    (deckDraw cards count).2 ++ (deckDraw cards count).1 = cards ∧
    (count ≤ 0 ∨ cards = [] → deckDraw cards count = ([], cards)) := by
  obtain ⟨hl1, hl2⟩ := deckDraw_lengths cards count
  refine ⟨hl1, hl2, ?_, ?_⟩
  · rw [deckDraw_eq]
    exact List.take_append_drop _ _
  · rintro (h | h)
    · have hz : count.toNat = 0 := by omega
      rw [deckDraw_eq, hz]
      simp
    · subst h
      rw [deckDraw_eq]
      simp

/-- C10 witness: the theorem applied at a deck of two cards and count
minus one, checking the non-positive-count clause concretely. -/
theorem C10_deck_draw_never_overdraws_witness :
    ((-1 : ℤ) ≤ 0 ∨ [Card.mk "Hearts" "A", Card.mk "Spades" "K"] = []) ∧
    deckDraw [Card.mk "Hearts" "A", Card.mk "Spades" "K"] (-1) =
      ([], [Card.mk "Hearts" "A", Card.mk "Spades" "K"]) :=
  ⟨Or.inl (by decide),
   (C10_deck_draw_never_overdraws
     [Card.mk "Hearts" "A", Card.mk "Spades" "K"] (-1)).2.2.2
     (Or.inl (by decide))⟩

/-- C9: every hp-modifying operation keeps hp within bounds:
`Player.take_damage` and `Enemy.take_damage` clamp hp at 0 for any
damage, `PoisonEffect.tick` clamps at 0, and `HealEffect.apply` never
raises hp above `max_hp` (and keeps hp nonnegative when the state and
amount are nonnegative). -/
theorem C9_hp_bounds :
    (∀ (p : Player) (dmg : ℚ), 0 ≤ (playerTakeDamage p dmg).hp) ∧
    (∀ (e : Enemy) (dmg : ℚ), 0 ≤ (enemyTakeDamage e dmg).hp) ∧
    (∀ hp dpt : ℤ, 0 ≤ poisonTickHp hp dpt) ∧
    (∀ hp maxHp amount : ℤ, healApply hp maxHp amount ≤ maxHp) ∧
    (∀ hp maxHp amount : ℤ, 0 ≤ hp → 0 ≤ maxHp → 0 ≤ amount →
      0 ≤ healApply hp maxHp amount) := by
  refine ⟨?_, ?_, ?_, ?_, ?_⟩
  · intro p dmg
    simp only [playerTakeDamage]
    exact le_max_left _ _
  · intro e dmg
    simp only [enemyTakeDamage]
    exact le_max_left _ _
  · intro hp dpt
    exact le_max_left _ _
  · intro hp maxHp amount
    exact min_le_left _ _
  · intro hp maxHp amount h1 h2 h3
    simp only [healApply, le_min_iff]
    omega

/-- C9 witness: the heal bound of the theorem applied at hp 5, max 10,
amount 3. -/
theorem C9_hp_bounds_witness :
    (0 : ℤ) ≤ 5 ∧ (0 : ℤ) ≤ 10 ∧ (0 : ℤ) ≤ 3 ∧ 0 ≤ healApply 5 10 3 :=
  ⟨by decide, by decide, by decide,
   C9_hp_bounds.2.2.2.2 5 10 3 (by decide) (by decide) (by decide)⟩



/-- C3 amended: the rejection paths that exist in the code mutate
nothing — `discard_cards` rejects a zero budget and an empty selection
with the player unchanged, and `form_hand_and_attack` rejects an empty
or out-of-range selection with the player unchanged; duplicate indices
are not rejected by either operation, and `discard_cards` does not
reject out-of-range indices (see the counterexample, where the discard
budget is consumed). -/
theorem C3_rejections_do_not_mutate (shuffle : List Card → List Card)
    (p : Player) (indices : List ℤ) :
    (p.discardsLeft ≤ 0 → discardCards shuffle p indices = ([], p)) ∧
    (indices = [] → discardCards shuffle p indices = ([], p)) ∧
    ((indices = [] ∨ ∃ i ∈ indices, (p.hand.length : ℤ) ≤ i ∨ i < 0) →
      formHandAndAttack shuffle p indices = .ok ((0, none, []), p)) := by
  refine ⟨?_, ?_, ?_⟩
  · intro h
    simp [discardCards, h]
  · intro h
    subst h
    simp [discardCards]
  · rintro (h | ⟨i, hi, hrange⟩)
    · subst h
      rfl
    · have hne : (indices.length == 0) = false := by
        cases indices with
        | nil => simp at hi
        | cons a t => rfl
      have hany : indices.any
          (fun i => decide ((p.hand.length : ℤ) ≤ i) || decide (i < 0)) = true := by
        apply List.any_eq_true.mpr
        refine ⟨i, hi, ?_⟩
        rcases hrange with h | h <;> simp [h]
      simp only [formHandAndAttack, hne, hany]
      rfl

/-- C3 counterexample: calling `discard_cards` with the single
out-of-range index 5 on a one-card hand is an invalid selection, yet the
discard budget drops from 3 to 2 (no card is discarded), so the claim
that every invalid selection leaves all state unchanged is false. -/
theorem C3_out_of_range_discard_mutates :
    (discardCards (fun l => l) pC [5]).2.discardsLeft = 2 ∧
    pC.discardsLeft = 3 ∧
    (discardCards (fun l => l) pC [5]).1 = [] := by
  refine ⟨by decide, by decide, by decide⟩

/-- C3 witness: the attack rejection clause of the theorem applied at
the concrete player and the out-of-range selection. -/
theorem C3_rejections_do_not_mutate_witness :
    (([5] : List ℤ) = [] ∨
      ∃ i ∈ ([5] : List ℤ), (pC.hand.length : ℤ) ≤ i ∨ i < 0) ∧
    formHandAndAttack (fun l => l) pC [5] = .ok ((0, none, []), pC) :=
  ⟨by decide,
   (C3_rejections_do_not_mutate (fun l => l) pC [5]).2.2 (by decide)⟩

/-- Sizes and no-op case of the count-free `draw_cards` top-up, for any
length-preserving shuffle. -/
theorem drawCards_none_spec (shuffle : List Card → List Card)
    (hLen : ∀ l, (shuffle l).length = l.length) (p : Player) :
    (drawCards shuffle p none).hand.length =
      max p.hand.length
        (min (p.handSize + p.jokers.count "fool")
          (p.hand.length + p.deck.length)) ∧
    (drawCards shuffle p none).deck.length =
      p.hand.length + p.deck.length -
        max p.hand.length
          (min (p.handSize + p.jokers.count "fool")
            (p.hand.length + p.deck.length)) ∧
    (drawCards shuffle p none).handSize = p.handSize ∧
    (drawCards shuffle p none).jokers = p.jokers ∧
    (p.handSize + p.jokers.count "fool" ≤ p.hand.length →
      drawCards shuffle p none = p) := by
  simp only [drawCards]
  have hdeck1 :
      (if max 0 (((p.handSize : ℤ) + (p.jokers.count "fool" : ℤ) * 1) -
          (p.hand.length : ℤ)) > 0
        then shuffle p.deck else p.deck).length = p.deck.length := by
    split_ifs
    · exact hLen _
    · rfl
  obtain ⟨hl1, hl2⟩ := deckDraw_lengths
    (if max 0 (((p.handSize : ℤ) + (p.jokers.count "fool" : ℤ) * 1) -
        (p.hand.length : ℤ)) > 0
      then shuffle p.deck else p.deck)
    (max 0 (((p.handSize : ℤ) + (p.jokers.count "fool" : ℤ) * 1) -
      (p.hand.length : ℤ)))
  rw [hdeck1] at hl1 hl2
  refine ⟨?_, ?_, by trivial, by trivial, ?_⟩
  · simp only [List.length_append, hl1]
    omega
  · simp only [hl2]
    omega
  · intro hle
    have hc : max 0 (((p.handSize : ℤ) + (p.jokers.count "fool" : ℤ) * 1) -
        (p.hand.length : ℤ)) = 0 := by omega
    rw [hc]
    simp [deckDraw]

/-- C8 amended: the count-free top-up is idempotent — a second call
never changes the hand size — and a hand at or above the target
(`hand_size` plus one per held fool joker) gains no cards; the hand
reaches the target exactly when the deck holds enough cards, and
otherwise stops at hand plus deck (the claim states the target is always
reached, which fails on an exhausted deck). -/
theorem C8_topup_idempotent (shuffle : List Card → List Card)
    (hLen : ∀ l, (shuffle l).length = l.length) (p : Player) :
    (drawCards shuffle (drawCards shuffle p none) none).hand.length =
      (drawCards shuffle p none).hand.length ∧
    (drawCards shuffle p none).hand.length =
      max p.hand.length
        (min (p.handSize + p.jokers.count "fool")
          (p.hand.length + p.deck.length)) ∧
    (p.handSize + p.jokers.count "fool" ≤ p.hand.length →
      drawCards shuffle p none = p) := by
  obtain ⟨h1, h2, h3, h4, h5⟩ := drawCards_none_spec shuffle hLen p
  obtain ⟨g1, g2, g3, g4, g5⟩ :=
    drawCards_none_spec shuffle hLen (drawCards shuffle p none)
  refine ⟨?_, h1, h5⟩
  rw [g1, h3, h4, h1, h2]
  omega

/-- C8 counterexample: a player with an empty hand and an exhausted deck
calls the top-up twice and ends with hand size 0, not the target 8, so
the claimed hand size of `hand_size` plus fool bonuses is not reached
for every player state. -/
theorem C8_exhausted_deck_misses_target :
    (drawCards (fun l => l) (drawCards (fun l => l)
        ⟨100, 100, [], [], [], 8, 3, 3, [], [], [], 0, 1⟩ none) none).hand.length
      = 0 ∧
    (⟨100, 100, [], [], [], 8, 3, 3, [], [], [], 0, 1⟩ : Player).handSize +
      (⟨100, 100, [], [], [], 8, 3, 3, [], [], [], 0, 1⟩ : Player).jokers.count "fool"
      = 8 ∧
    (0 : ℕ) ≠ 8 := by
  refine ⟨by decide, by decide, by decide⟩

/-- C8 witness: the theorem applied with the identity shuffle at the
concrete one-card player. -/
theorem C8_topup_idempotent_witness :
    (∀ l : List Card, ((fun l => l) l).length = l.length) ∧
    (drawCards (fun l => l) (drawCards (fun l => l) pC none) none).hand.length =
      (drawCards (fun l => l) pC none).hand.length :=
  ⟨fun _ => rfl, (C8_topup_idempotent (fun l => l) (fun _ => rfl) pC).1⟩

/-- Updating the phase leaves the underlying enemy untouched. -/
theorem updatePhase_enemy (b : Boss) : (updatePhase b).enemy = b.enemy := by
  simp only [updatePhase]
  split_ifs <;> rfl

/-- Updating the phase leaves the declared phase list untouched. -/
theorem updatePhase_phases (b : Boss) : (updatePhase b).phases = b.phases := by
  simp only [updatePhase]
  split_ifs <;> rfl

/-- One step of the phase machine: under the invariant, a damage-only hp
change can never lower the phase index, and the invariant is
preserved. -/
theorem updatePhase_step (b : Boss) (h : ℤ) (hmax : 0 < b.enemy.maxHp)
    (hinv : PhaseInv b) (hle : h ≤ b.enemy.hp) :
    phaseIdx b.currentPhase ≤
      phaseIdx (updatePhase (setEnemyHp b h)).currentPhase ∧
    PhaseInv (updatePhase (setEnemyHp b h)) := by
  have hmQ : (0 : ℚ) < (b.enemy.maxHp : ℚ) := by exact_mod_cast hmax
  have hpct : getHealthPercentage (setEnemyHp b h) ≤ getHealthPercentage b := by
    have hleQ : (h : ℚ) ≤ (b.enemy.hp : ℚ) := by exact_mod_cast hle
    show Rat.divInt h b.enemy.maxHp ≤ Rat.divInt b.enemy.hp b.enemy.maxHp
    rw [Rat.divInt_eq_div, Rat.divInt_eq_div]
    gcongr
  by_cases h3 : getHealthPercentage (setEnemyHp b h) ≤ Rat.divInt 1 5 ∧
      BossPhase.phase3 ∈ (setEnemyHp b h).phases
  · have hup : updatePhase (setEnemyHp b h) =
        { setEnemyHp b h with currentPhase := .phase3 } := by
      simp only [updatePhase]
      rw [if_pos h3]
    rw [hup]
    refine ⟨?_, Or.inr ⟨h3.2, h3.1⟩⟩
    show phaseIdx b.currentPhase ≤ phaseIdx BossPhase.phase3
    rcases hinv with hi | ⟨_, hth⟩
    · rw [hi]; decide
    · cases hc : b.currentPhase
      · decide
      · decide
      · decide
      · decide
      · simp [phaseThresholdOk, hc] at hth
  · by_cases h2 : getHealthPercentage (setEnemyHp b h) ≤ Rat.divInt 1 2 ∧
        BossPhase.phase2 ∈ (setEnemyHp b h).phases
    · have hup : updatePhase (setEnemyHp b h) =
          { setEnemyHp b h with currentPhase := .phase2 } := by
        simp only [updatePhase]
        rw [if_neg h3, if_pos h2]
      rw [hup]
      refine ⟨?_, Or.inr ⟨h2.2, h2.1⟩⟩
      show phaseIdx b.currentPhase ≤ phaseIdx BossPhase.phase2
      rcases hinv with hi | ⟨hm, hth⟩
      · rw [hi]; decide
      · cases hc : b.currentPhase
        · decide
        · decide
        · decide
        · simp only [phaseThresholdOk, hc] at hth
          exact absurd ⟨le_trans hpct hth, hc ▸ hm⟩ h3
        · simp [phaseThresholdOk, hc] at hth
    · by_cases h1 : getHealthPercentage (setEnemyHp b h) ≤ Rat.divInt 4 5 ∧
          BossPhase.phase1 ∈ (setEnemyHp b h).phases
      · have hup : updatePhase (setEnemyHp b h) =
            { setEnemyHp b h with currentPhase := .phase1 } := by
          simp only [updatePhase]
          rw [if_neg h3, if_neg h2, if_pos h1]
        rw [hup]
        refine ⟨?_, Or.inr ⟨h1.2, h1.1⟩⟩
        show phaseIdx b.currentPhase ≤ phaseIdx BossPhase.phase1
        rcases hinv with hi | ⟨hm, hth⟩
        · rw [hi]; decide
        · cases hc : b.currentPhase
          · decide
          · decide
          · simp only [phaseThresholdOk, hc] at hth
            exact absurd ⟨le_trans hpct hth, hc ▸ hm⟩ h2
          · simp only [phaseThresholdOk, hc] at hth
            exact absurd ⟨le_trans hpct hth, hc ▸ hm⟩ h3
          · simp [phaseThresholdOk, hc] at hth
      · have hup : updatePhase (setEnemyHp b h) = setEnemyHp b h := by
          simp only [updatePhase]
          rw [if_neg h3, if_neg h2, if_neg h1]
        rw [hup]
        refine ⟨le_refl _, ?_⟩
        rcases hinv with hi | ⟨hm, hth⟩
        · exact Or.inl hi
        · cases hc : b.currentPhase
          · simp [phaseThresholdOk, hc] at hth
          · simp only [phaseThresholdOk, hc] at hth
            exact absurd ⟨le_trans hpct hth, hc ▸ hm⟩ h1
          · simp only [phaseThresholdOk, hc] at hth
            exact absurd ⟨le_trans hpct hth, hc ▸ hm⟩ h2
          · simp only [phaseThresholdOk, hc] at hth
            exact absurd ⟨le_trans hpct hth, hc ▸ hm⟩ h3
          · simp [phaseThresholdOk, hc] at hth

/-- Along any non-increasing hp sequence, the phase trace is monotone in
the phase ordering and every visited phase is Intro or declared. -/
theorem phaseSeq_mono (hps : List ℤ) :
    ∀ b : Boss, 0 < b.enemy.maxHp → PhaseInv b →
    List.Chain' (fun x y => y ≤ x) (b.enemy.hp :: hps) →
    List.Chain' (fun p q => phaseIdx p ≤ phaseIdx q)
      (b.currentPhase :: phaseSeq b hps) ∧
    ∀ ph ∈ phaseSeq b hps, ph = .intro ∨ ph ∈ b.phases := by
  induction hps with
  | nil =>
    intro b _ _ _
    refine ⟨?_, ?_⟩ <;> simp [phaseSeq]
  | cons h t ih =>
    intro b hmax hinv hchain
    rw [List.chain'_cons] at hchain
    obtain ⟨hle, hchain'⟩ := hchain
    obtain ⟨hidx, hinv'⟩ := updatePhase_step b h hmax hinv hle
    have hb1max : 0 < (updatePhase (setEnemyHp b h)).enemy.maxHp := by
      rw [updatePhase_enemy]
      exact hmax
    have hb1hp : (updatePhase (setEnemyHp b h)).enemy.hp = h := by
      rw [updatePhase_enemy]
      rfl
    have hb1phases : (updatePhase (setEnemyHp b h)).phases = b.phases :=
      updatePhase_phases _
    have hchain1 : List.Chain' (fun x y => y ≤ x)
        ((updatePhase (setEnemyHp b h)).enemy.hp :: t) := by
      rw [hb1hp]
      exact hchain'
    obtain ⟨ih1, ih2⟩ := ih (updatePhase (setEnemyHp b h)) hb1max hinv' hchain1
    constructor
    · simp only [phaseSeq]
      exact List.chain'_cons.mpr ⟨hidx, ih1⟩
    · intro ph hph
      simp only [phaseSeq] at hph
      rcases List.mem_cons.mp hph with rfl | hph
      · rcases hinv' with hi | ⟨hm, _⟩
        · exact Or.inl hi
        · exact Or.inr (hb1phases ▸ hm)
      · rcases ih2 ph hph with hi | hm
        · exact Or.inl hi
        · exact Or.inr (hb1phases ▸ hm)

/-- C6: starting from Intro with positive max hp, a boss whose hp only
decreases produces a phase trace that never regresses in the ordering
Intro < Phase1 < Phase2 < Phase3, and every threshold phase it enters is
in the declared phase list. -/
theorem C6_phase_never_regresses (b : Boss) (hps : List ℤ)
    (hmax : 0 < b.enemy.maxHp) (hintro : b.currentPhase = .intro)
    (hchain : List.Chain' (fun x y => y ≤ x) (b.enemy.hp :: hps)) :
    List.Chain' (fun p q => phaseIdx p ≤ phaseIdx q)
      (b.currentPhase :: phaseSeq b hps) ∧
    ∀ ph ∈ phaseSeq b hps, ph = .intro ∨ ph ∈ b.phases :=
  phaseSeq_mono hps b hmax (Or.inl hintro) hchain



/-- C6 witness: the theorem applied to a boss dropping through all three
thresholds (100, 70, 40, 10 hp). -/
theorem C6_phase_never_regresses_witness :
    0 < bW.enemy.maxHp ∧ bW.currentPhase = .intro ∧
    List.Chain' (fun x y => y ≤ x) (bW.enemy.hp :: [70, 40, 10]) ∧
    (List.Chain' (fun p q => phaseIdx p ≤ phaseIdx q)
      (bW.currentPhase :: phaseSeq bW [70, 40, 10]) ∧
    ∀ ph ∈ phaseSeq bW [70, 40, 10], ph = .intro ∨ ph ∈ bW.phases) :=
  ⟨by decide, by decide, by norm_num [bW, List.chain'_cons],
   C6_phase_never_regresses bW [70, 40, 10] (by decide) (by decide)
     (by norm_num [bW, List.chain'_cons])⟩

/-- Truncation is the identity on integers. -/
theorem pyInt_intCast (n : ℤ) : pyInt ((n : ℤ) : ℚ) = n := by
  simp [pyInt]

/-- An in-range modular `getD` lookup lands in the list. -/
theorem getD_mod_mem {α : Type} (l : List α) (d : α) (k : ℕ) (hne : l ≠ []) :
    l.getD (k % l.length) d ∈ l := by
  have hlt : k % l.length < l.length := Nat.mod_lt _ (List.length_pos.mpr hne)
  rw [List.getD_eq_getElem l d hlt]
  exact List.getElem_mem hlt

/-- Updating cooldowns and the turn counter leaves the phase alone. -/
theorem bossAfterCooldowns_currentPhase (b : Boss) :
    (bossAfterCooldowns b).currentPhase = b.currentPhase := rfl

/-- Updating cooldowns and the turn counter leaves the enemy alone. -/
theorem bossAfterCooldowns_enemy (b : Boss) :
    (bossAfterCooldowns b).enemy = b.enemy := rfl

/-- A chosen ability index always points at an off-cooldown ability. -/
theorem chooseAbility_canUse (b : Boss) (r i : ℕ)
    (h : chooseAbility b r = some i) :
    (b.abilities.getD i defaultAbility).canUse = true := by
  simp only [chooseAbility] at h
  split_ifs at h with he hu
  · have hi := Option.some.inj h
    have hmem : i ∈ ((List.range b.abilities.length).filter
        (fun i => (b.abilities.getD i defaultAbility).canUse)).filter
        (fun i => decide ((b.abilities.getD i defaultAbility).name ∉
          b.specialAbilitiesUsed)) := by
      rw [← hi]
      apply getD_mod_mem
      intro hnil
      rw [hnil] at hu
      simp at hu
    have := (List.mem_filter.mp ((List.mem_filter.mp hmem).1)).2
    exact this
  · have hi := Option.some.inj h
    have hmem : i ∈ (List.range b.abilities.length).filter
        (fun i => (b.abilities.getD i defaultAbility).canUse) := by
      rw [← hi]
      apply getD_mod_mem
      intro hnil
      rw [hnil] at he
      simp at he
    exact (List.mem_filter.mp hmem).2

/-- C7: the two phase damage tables of `Boss.take_turn` are exactly the
spec tables — a chosen ability deals `int(damage * s)` with s drawn from
`specAbilityScale` (1.0 / 1.5 / 2.0), and the basic attack deals
`int(attack * s)` with s drawn from the independent `specBasicScale`
(1.0 / 1.3 / 1.6); the floats 1.3 and 1.6 are modelled as the exact
rationals 13/10 and 8/5. -/
theorem C7_phase_damage_tables (b : Boss) (player : Player) (r : ℕ) :
    (∀ i, chooseAbility (bossAfterCooldowns b) r = some i →
      (takeTurn b player r).1.damage =
        pyInt ((((bossAfterCooldowns b).abilities.getD i
          defaultAbility).damage : ℚ) * specAbilityScale b.currentPhase)) ∧
    (chooseAbility (bossAfterCooldowns b) r = none →
      (takeTurn b player r).1.damage =
        pyInt ((b.enemy.attackValue : ℚ) * specBasicScale b.currentPhase)) := by
  constructor
  · intro i hch
    have hcan := chooseAbility_canUse _ r i hch
    simp only [takeTurn, hch]
    simp only [BossAbility.use]
    rw [if_pos hcan]
    cases hph : b.currentPhase <;>
      simp [specAbilityScale, hph, pyInt_intCast, bossAfterCooldowns_currentPhase]
  · intro hch
    simp only [takeTurn, hch]
    cases hph : b.currentPhase <;>
      simp [specBasicScale, hph, pyInt_intCast, bossAfterCooldowns_currentPhase,
        bossAfterCooldowns_enemy]





/-- C7 witness: the theorem applied to a Phase2 boss whose ability is
chosen and to a Phase3 boss falling back to the basic attack. -/
theorem C7_phase_damage_tables_witness :
    chooseAbility (bossAfterCooldowns bA) 0 = some 0 ∧
    (takeTurn bA pC 0).1.damage =
      pyInt ((((bossAfterCooldowns bA).abilities.getD 0
        defaultAbility).damage : ℚ) * specAbilityScale bA.currentPhase) ∧
    chooseAbility (bossAfterCooldowns bB) 0 = none ∧
    (takeTurn bB pC 0).1.damage =
      pyInt ((bB.enemy.attackValue : ℚ) * specBasicScale bB.currentPhase) :=
  ⟨by decide, (C7_phase_damage_tables bA pC 0).1 0 (by decide), by decide,
   (C7_phase_damage_tables bB pC 0).2 (by decide)⟩





/-- C2: the claim says that when the player attack brings the boss to 0
hp, the boss takes no turn and the player takes no counter-damage before
the victory result.  In the code, `take_player_turn` runs
`boss.take_turn` and `player.take_damage` unconditionally and checks
`is_defeated` only afterwards: a 10-damage action against a 10-hp boss
returns the victory result, yet the player hp has already dropped from
100 to 85 from the dead boss basic attack.  This theorem evaluates the
code at that failing input. -/
theorem C2_dead_boss_still_attacks :
    (takePlayerTurn encC2 10 0 0 0).2.player.hp = 85 ∧
    encC2.player.hp = 100 ∧
    (takePlayerTurn encC2 10 0 0 0).2.boss.enemy.hp = 0 ∧
    (takePlayerTurn encC2 10 0 0 0).1 =
      .victory true ⟨50, 10, ["twisted_essence"], []⟩ := by
  refine ⟨by decide, by decide, by decide, by decide⟩

end Gambition
